import Mathlib

/-!
Shallow embedding of the cleaning and monthly-aggregation core of the
air-health pipeline (`src/data/load_data.py`: `clean_data`, `aggregate_monthly`),
together with theorems checking the specification's claims.

A tabular record set (pandas `DataFrame`) is modelled as a header (column
names) plus a list of rows; each cell is a timestamp, a number, a text value,
or missing (`na` for NaN, `naT` for pandas' NaT missing-timestamp marker,
which arises only from date conversion and is distinct from NaN because the
converted column has datetime dtype).  Numbers are rationals.  `pandas`
behaviours embedded here: `pd.to_datetime` maps a missing value to NaT
without raising and raises on an unparseable text value; `Series.fillna(v)`
with `v = NaN` (the mean of an all-missing column) is a no-op;
`DataFrame.resample('M')` emits one bucket per calendar month from the
earliest to the latest month of the index, with NaN means / zero sizes for
empty buckets; `join(how='outer')` takes the sorted union of the month
indexes; `.mean()` keeps only numeric columns.
-/

namespace AirHealth

/-- A calendar date (year, month 1-12, day). -/
structure Date where
  year : Int
  month : Nat
  day : Nat
  deriving DecidableEq, Repr

/-- A cell value of a tabular record set: missing (NaN), missing timestamp
(NaT), number, text, or timestamp. -/
inductive Value where
  | na : Value
  | naT : Value
  | num : ℚ → Value
  | str : String → Value
  | ts : Date → Value
  deriving DecidableEq, Repr

/-- A tabular record set: column names plus rows of cells. -/
structure DF where
  header : List String
  rows : List (List Value)
  deriving DecidableEq, Repr

/-- Cell of a row at column index `j` (missing when out of range). -/
def cell (r : List Value) (j : Nat) : Value := r.getD j Value.na

/-- The cells of column `j`, top to bottom. -/
def colCells (df : DF) (j : Nat) : List Value := df.rows.map (fun r => cell r j)

/-- A cell of numeric dtype: a number or NaN. -/
def isNumCell : Value → Bool
  | Value.na => true
  | Value.num _ => true
  | _ => false

/-- A column has numeric dtype when every cell is a number or NaN
(an all-NaN column is float dtype, hence numeric). -/
def isNumCol (cs : List Value) : Bool := cs.all isNumCell

/-- A missing cell in the sense of `dropna` / `fillna`: NaN or NaT. -/
def isNAv : Value → Bool
  | Value.na => true
  | Value.naT => true
  | _ => false

/-- The numbers present in a column (non-missing numeric values). -/
def numVals (cs : List Value) : List ℚ :=
  cs.filterMap (fun v => match v with | Value.num q => some q | _ => none)

/-- `Series.mean()`: arithmetic mean of the non-missing values, `none`
(NaN) when there are no values at all. -/
def colMean (cs : List Value) : Option ℚ :=
  let vs := numVals cs
  if vs.length = 0 then none else some (vs.sum / vs.length)

/-- Well-formedness of a record set: every row has one cell per column.
All frames produced by `pd.read_csv` / `pd.DataFrame` are of this shape. -/
def wf (df : DF) : Bool := df.rows.all (fun r => r.length = df.header.length)

/-! ### Date parsing (`pd.to_datetime`) -/

/-- Digit characters to a number; `none` when empty or a non-digit occurs. -/
def digitsToNat (cs : List Char) : Option Nat :=
  match cs with
  | [] => none
  | _ =>
    if cs.all (fun c => c.isDigit) then
      some (cs.foldl (fun n c => 10 * n + (c.toNat - 48)) 0)
    else none

/-- Split a character list on the dash character. -/
def splitDash (cs : List Char) : List (List Char) :=
  match cs with
  | [] => [[]]
  | c :: rest =>
    let r := splitDash rest
    if c = '-' then [] :: r
    else
      match r with
      | [] => [[c]]
      | g :: gs => (c :: g) :: gs

/-- Days in a calendar month, with the Gregorian leap-year rule. -/
def daysInMonth (y : Nat) (m : Nat) : Nat :=
  if m = 2 then
    if y % 4 = 0 ∧ (y % 100 ≠ 0 ∨ y % 400 = 0) then 29 else 28
  else if m = 4 ∨ m = 6 ∨ m = 9 ∨ m = 11 then 30
  else 31

/-- Modelled `pd.to_datetime` string parsing, on ISO `YYYY-MM-DD` dates (the
format of the pipeline's date columns); a malformed or non-calendar date is a
parse failure, as in pandas. -/
def parseDate (s : String) : Option Date :=
  match splitDash s.toList with
  | [ys, ms, ds] =>
    match digitsToNat ys, digitsToNat ms, digitsToNat ds with
    | some y, some m, some d =>
      if 1 ≤ m ∧ m ≤ 12 ∧ 1 ≤ d ∧ d ≤ daysInMonth y m then
        some ⟨(y : Int), m, d⟩
      else none
    | _, _, _ => none
  | _ => none

/-- Civil-calendar date of a day count from the epoch 1970-01-01. -/
def daysToDate (z0 : Int) : Date :=
  let z := z0 + 719468
  let era := Int.fdiv z 146097
  let doe := z - era * 146097
  let yoe := Int.fdiv (doe - Int.fdiv doe 1460 + Int.fdiv doe 36524 - Int.fdiv doe 146096) 365
  let y := yoe + era * 400
  let doy := doe - (365 * yoe + Int.fdiv yoe 4 - Int.fdiv yoe 100)
  let mp := Int.fdiv (5 * doy + 2) 153
  let d := doy - Int.fdiv (153 * mp + 2) 5 + 1
  let m := if mp < 10 then mp + 3 else mp - 9
  ⟨(if m ≤ 2 then y + 1 else y), m.toNat, d.toNat⟩

/-- Nanoseconds per day: pandas interprets a numeric value passed to
`to_datetime` as nanoseconds since the epoch. -/
def nsPerDay : ℚ := 86400000000000

/-- `pd.to_datetime` on one cell: missing becomes NaT (no error), a
timestamp stays itself, a number is an epoch offset, and a text value must
parse or the conversion fails reporting the value. -/
def toDatetime : Value → Except Value Value
  | Value.na => Except.ok Value.naT
  | Value.naT => Except.ok Value.naT
  | Value.ts d => Except.ok (Value.ts d)
  | Value.num q => Except.ok (Value.ts (daysToDate ⌊q / nsPerDay⌋))
  | Value.str s =>
    match parseDate s with
    | some d => Except.ok (Value.ts d)
    | none => Except.error (Value.str s)

/-! ### `clean_data` -/

/-- Errors aborting `clean_data`: the date column is absent (`KeyError`), or
a date value cannot be parsed (parse error naming the offending row/value). -/
inductive CleanErr where
  | missingColumn : String → CleanErr
  | parseError : Nat → Value → CleanErr
  deriving DecidableEq, Repr

deriving instance DecidableEq for Except

/-- `df[date_col] = pd.to_datetime(df[date_col])` on the row list: convert
the cell at index `dj` of every row, failing on the first unparseable value
(`i` is the index of the row being converted). -/
def convertRows (rows : List (List Value)) (dj : Nat) (i : Nat) :
    Except CleanErr (List (List Value)) :=
  match rows with
  | [] => Except.ok []
  | r :: rs =>
    match toDatetime (cell r dj) with
    | Except.error v => Except.error (CleanErr.parseError i v)
    | Except.ok v =>
      match convertRows rs dj (i + 1) with
      | Except.error e => Except.error e
      | Except.ok rest => Except.ok (r.set dj v :: rest)

/-- Column indices of numeric dtype (`df.select_dtypes(include="number")`).
After date conversion the date column has datetime dtype, so it is numeric
only in the degenerate no-rows case. -/
def numIdxs (df : DF) : List Nat :=
  (List.range df.header.length).filter (fun j => isNumCol (colCells df j))

/-- Column indices of non-numeric dtype other than the date column
(`df.select_dtypes(exclude="number").columns.drop(date_col)`). -/
def objIdxs (df : DF) (dj : Nat) : List Nat :=
  (List.range df.header.length).filter
    (fun j => ¬ isNumCol (colCells df j) ∧ j ≠ dj)

/-- `fillna` on one row at column `j`: replace a NaN cell by the fill value
when there is one (`none` is the NaN mean of a valueless column, whose fill
is a no-op). -/
def fillRow (m? : Option ℚ) (j : Nat) (r : List Value) : List Value :=
  match m? with
  | none => r
  | some m => r.set j (match cell r j with | Value.na => Value.num m | v => v)

/-- `df[col] = df[col].fillna(df[col].mean())` for column `j`: when the mean
is NaN (no values at all) the fill is a no-op; otherwise every NaN cell of
column `j` becomes the mean. -/
def fillCol (df : DF) (j : Nat) : DF :=
  match colMean (colCells df j) with
  | none => df
  | some m => { df with rows := df.rows.map (fillRow (some m) j) }

/-- `df.dropna(subset=obj_cols)`: keep the rows with no missing value in any
of the columns `js`. -/
def dropNaRows (df : DF) (js : List Nat) : DF :=
  { df with rows := df.rows.filter (fun r => js.all (fun j => ¬ isNAv (cell r j))) }

/-- Stage 1 of `clean_data`: the frame after date conversion. -/
def cleanStage1 (df : DF) (dc : String) : Except CleanErr DF :=
  match convertRows df.rows (df.header.indexOf dc) 0 with
  | Except.error e => Except.error e
  | Except.ok rows1 => Except.ok ⟨df.header, rows1⟩

/-- The effect of the whole imputation loop on a single row: each numeric
column's cell filled with that column's mean over the pre-imputation frame
`df1`. -/
def multiFill (df1 : DF) (r : List Value) : List Value :=
  (numIdxs df1).foldl (fun r j => fillRow (colMean (colCells df1 j)) j r) r

/-- Stage 2 of `clean_data`: the numeric-imputation loop
(`for col in num_cols: df[col] = df[col].fillna(df[col].mean())`),
iterated over the numeric columns selected once up front. -/
def cleanStage2 (df1 : DF) : DF := (numIdxs df1).foldl fillCol df1

/--
`clean_data(df, date_col)`.  The source mutates its argument: the date
conversion and the numeric fills are in-place column assignments on the
caller's frame, while the final `dropna` rebinds the local name only.  The
embedding therefore returns a pair on success: the caller's frame after the
call (dates converted, numeric NaNs filled) and the returned frame (the same
with rows having missing non-numeric cells dropped).  A missing date column
raises, and an unparseable date value raises before anything is assigned.
-/
def clean_data (df : DF) (date_col : String) : Except CleanErr (DF × DF) :=
  if date_col ∈ df.header then
    let dj := df.header.indexOf date_col
    match cleanStage1 df date_col with
    | Except.error e => Except.error e
    | Except.ok df1 =>
      let df2 := cleanStage2 df1
      let df3 := dropNaRows df2 (objIdxs df1 dj)
      Except.ok (df2, df3)
  else Except.error (CleanErr.missingColumn date_col)

/-! ### `aggregate_monthly` -/

/-- Linear index of a calendar month (months since year 0). -/
def monthIdx (d : Date) : Int := d.year * 12 + ((d.month : Int) - 1)

/-- The timestamp in row `r`'s date column, when present. -/
def dateOf (r : List Value) (dj : Nat) : Option Date :=
  match cell r dj with | Value.ts d => some d | _ => none

/-- The calendar month of a row's date-column timestamp. -/
def rowMonth (r : List Value) (dj : Nat) : Option Int := (dateOf r dj).map monthIdx

/-- The months of a frame's date-column timestamps (the resample index). -/
def dfMonths (df : DF) (dj : Nat) : List Int := df.rows.filterMap (fun r => rowMonth r dj)

/-- `resample('M')` month buckets: one bucket for every calendar month from
the earliest to the latest month of the index; none for an empty frame. -/
def monthRange (ms : List Int) : List Int :=
  match ms.min?, ms.max? with
  | some mn, some mx => (List.range (mx + 1 - mn).toNat).map (fun (k : Nat) => mn + (k : Int))
  | _, _ => []

/-- The rows falling in calendar month `m`. -/
def rowsInMonth (df : DF) (dj : Nat) (m : Int) : List (List Value) :=
  df.rows.filter (fun r => rowMonth r dj = some m)

/-- The non-missing numbers of column `j` among the rows of month `m`. -/
def monthNumVals (df : DF) (dj : Nat) (j : Nat) (m : Int) : List ℚ :=
  numVals ((rowsInMonth df dj m).map (fun r => cell r j))

/-- `resample('M').mean()` for column `j` at month `m`: the arithmetic mean
of the month's non-missing values, NaN for an empty bucket. -/
def bucketMean (df : DF) (dj : Nat) (j : Nat) (m : Int) : Value :=
  let vs := monthNumVals df dj j m
  if vs.length = 0 then Value.na else Value.num (vs.sum / vs.length)

/-- `resample('M').size()` at month `m`: the number of rows in the bucket. -/
def bucketSize (df : DF) (dj : Nat) (m : Int) : Nat := (rowsInMonth df dj m).length

/-- The air-quality value columns kept by `resample('M').mean()`: every
column other than the index of numeric dtype (non-numeric columns are
dropped by `mean()`). -/
def airValCols (air : DF) (adj : Nat) : List Nat :=
  (List.range air.header.length).filter (fun j => j ≠ adj ∧ isNumCol (colCells air j))

/-- `fillna(0)` on one cell. -/
def fill0 (v : Value) : Value := if isNAv v then Value.num 0 else v

/-- The index of the air-quality date column `timestamp`
(`air_df.set_index('timestamp')`). -/
def airIdxCol (air : DF) : Nat := air.header.indexOf "timestamp"

/-- The index of a hospitalization frame's date column `admission_date`
(`hosp_df.set_index('admission_date')`). -/
def hospIdxCol (df : DF) : Nat := df.header.indexOf "admission_date"

/-- The month buckets of the resampled air-quality series. -/
def airMonths (air : DF) : List Int := monthRange (dfMonths air (airIdxCol air))

/-- The month buckets of a resampled hospitalization series. -/
def hospMonths (df : DF) : List Int := monthRange (dfMonths df (hospIdxCol df))

/-- Insert a month into a strictly ascending list, keeping it strictly
ascending (no duplicate is created). -/
def insMonth (m : Int) : List Int → List Int
  | [] => [m]
  | x :: xs => if m = x then x :: xs else if m < x then m :: x :: xs else x :: insMonth m xs

/-- The sorted union of month indexes produced by the two outer joins:
the strictly ascending list of the months occurring in `ms`. -/
def joinMonths (ms : List Int) : List Int := ms.foldr insMonth []

/-- The monthly aggregate table: month index plus named data columns. -/
structure MTable where
  months : List Int
  header : List String
  rows : List (List Value)
  deriving DecidableEq, Repr

/-- The row of the joined, zero-filled table at month `m`: the air means
(NaN outside the air resample index or for an empty bucket, then filled
with zero), the all-cause admission count, and the filtered admission count
(zero when `m` falls outside a source's resample index). -/
def aggRow (air hosp jp : DF) (adj hdj jdj : Nat) (aM hM jM : List Int)
    (cols : List Nat) (m : Int) : List Value :=
  (cols.map (fun j => fill0 (if m ∈ aM then bucketMean air adj j m else Value.na)))
  ++ [fill0 (if m ∈ hM then Value.num (bucketSize hosp hdj m) else Value.na),
      fill0 (if m ∈ jM then Value.num (bucketSize jp jdj m) else Value.na)]

/--
`aggregate_monthly(air_df, hosp_df, jp_df)`: set the designated date columns
as indexes, resample each source to calendar months (air: per-column means
of the numeric columns, renamed with the `air_` tag; hospitalizations:
bucket sizes as `hospitalizations_total` / `hospitalizations_jp`), outer-join
the three monthly series on the union of their month indexes, and fill the
cells left missing by the join (or by an empty air bucket) with zero.
The pipeline feeds it cleaned frames whose date columns hold timestamps;
rows without a timestamp in the date column do not occur there.
-/
def aggregate_monthly (air hosp jp : DF) : MTable :=
  let adj := airIdxCol air
  let hdj := hospIdxCol hosp
  let jdj := hospIdxCol jp
  let aM := airMonths air
  let hM := hospMonths hosp
  let jM := hospMonths jp
  let cols := airValCols air adj
  let allM := joinMonths (aM ++ hM ++ jM)
  { months := allM
  , header := (cols.map (fun j => "air_" ++ air.header.getD j "")) ++
      ["hospitalizations_total", "hospitalizations_jp"]
  , rows := allM.map (aggRow air hosp jp adj hdj jdj aM hM jM cols) }

/-- The value of a filled numeric cell: NaN becomes the column mean. -/
def fillVal (m? : Option ℚ) (v : Value) : Value :=
  match m?, v with
  | some m, Value.na => Value.num m
  | _, v => v

def c2CexDf : DF := ⟨["admission_date", "city"], [[Value.na, Value.str "JP"]]⟩

def c2CexOut : DF := ⟨["admission_date", "city"], [[Value.naT, Value.str "JP"]]⟩

def c2WDf : DF := ⟨["admission_date"], [[Value.str "2024-01-01"], [Value.str "bogus"]]⟩

def c3CexDf : DF := ⟨["d", "x"], [[Value.str "2024-01-05", Value.na]]⟩

def c3CexOut : DF := ⟨["d", "x"], [[Value.ts ⟨2024, 1, 5⟩, Value.na]]⟩

def c3WDf : DF := ⟨["d", "x"], [[Value.str "2024-01-05", Value.na], [Value.str "2024-01-06", Value.na]]⟩

def c3WDf1 : DF := ⟨["d", "x"], [[Value.ts ⟨2024, 1, 5⟩, Value.na], [Value.ts ⟨2024, 1, 6⟩, Value.na]]⟩

def c5WDf : DF := ⟨["timestamp", "pm25"],
  [[Value.str "2024-01-05", Value.num 10], [Value.str "2024-01-20", Value.na]]⟩

def c5WDf1 : DF := ⟨["timestamp", "pm25"],
  [[Value.ts ⟨2024, 1, 5⟩, Value.num 10], [Value.ts ⟨2024, 1, 20⟩, Value.na]]⟩

def c5WSt : DF := ⟨["timestamp", "pm25"],
  [[Value.ts ⟨2024, 1, 5⟩, Value.num 10], [Value.ts ⟨2024, 1, 20⟩, Value.num 10]]⟩

def c6CexDf : DF := ⟨["d"], [[Value.str "2024-01-05"]]⟩

def c6CexSt : DF := ⟨["d"], [[Value.ts ⟨2024, 1, 5⟩]]⟩

def c6WDf : DF := ⟨["d", "x"], [[Value.str "2024-01-05", Value.num 3]]⟩

def c6WSt : DF := ⟨["d", "x"], [[Value.ts ⟨2024, 1, 5⟩, Value.num 3]]⟩

def c4CexDf : DF := ⟨["d", "x"], [[Value.str "2024-01-05", Value.na]]⟩

def c4CexOut : DF := ⟨["d", "x"], [[Value.ts ⟨2024, 1, 5⟩, Value.na]]⟩

def c4WDf : DF := ⟨["d", "x", "t"],
  [[Value.str "2024-01-05", Value.num 1, Value.str "a"],
   [Value.str "2024-02-06", Value.num 2, Value.str "b"]]⟩

def c4WDf1 : DF := ⟨["d", "x", "t"],
  [[Value.ts ⟨2024, 1, 5⟩, Value.num 1, Value.str "a"],
   [Value.ts ⟨2024, 2, 6⟩, Value.num 2, Value.str "b"]]⟩

def c7WDf : DF := ⟨["d", "x", "t"],
  [[Value.str "2024-01-05", Value.num 1, Value.str "a"],
   [Value.str "2024-02-06", Value.na, Value.na]]⟩

def c7WRet : DF := ⟨["d", "x", "t"],
  [[Value.ts ⟨2024, 1, 5⟩, Value.num 1, Value.str "a"]]⟩

def c7WSt : DF := ⟨["d", "x", "t"],
  [[Value.ts ⟨2024, 1, 5⟩, Value.num 1, Value.str "a"],
   [Value.ts ⟨2024, 2, 6⟩, Value.num 1, Value.na]]⟩

def c8WAir : DF := ⟨["timestamp", "pm25", "station"], []⟩

def c8WHosp : DF := ⟨["admission_date", "city"], []⟩

def c8WJp : DF := ⟨["admission_date"], []⟩

def c1WAir : DF := ⟨["timestamp", "pm25"], [[Value.ts ⟨2024, 1, 5⟩, Value.num 10]]⟩

def c1WHosp : DF := ⟨["admission_date"], [[Value.ts ⟨2024, 2, 1⟩]]⟩

def c1WJp : DF := ⟨["admission_date"], []⟩

def c9WAir : DF := ⟨["timestamp", "pm25"],
  [[Value.ts ⟨2024, 1, 5⟩, Value.num 10], [Value.ts ⟨2024, 3, 1⟩, Value.num 30]]⟩

def c9WHosp : DF := ⟨["admission_date"], []⟩

def c9WJp : DF := ⟨["admission_date"], []⟩

def c10WAir : DF := ⟨["timestamp", "pm25", "station"],
  [[Value.ts ⟨2024, 1, 5⟩, Value.num 10, Value.num 101],
   [Value.ts ⟨2024, 1, 20⟩, Value.num 20, Value.num 101]]⟩

def c10WHosp : DF := ⟨["admission_date"], []⟩

def c10WJp : DF := ⟨["admission_date"], []⟩

/-! ### Basic cell lemmas -/

theorem cell_set_ne {j j' : Nat} (r : List Value) (v : Value) (h : j ≠ j') :
    cell (r.set j v) j' = cell r j' := by
  simp [cell, List.getD_eq_getElem?_getD, List.getElem?_set_ne h]

theorem cell_set_lt {j : Nat} {r : List Value} (v : Value) (h : j < r.length) :
    cell (r.set j v) j = v := by
  simp [cell, List.getD_eq_getElem?_getD, List.getElem?_set_self, h]

theorem set_cell_self (r : List Value) (j : Nat) : r.set j (cell r j) = r := by
  induction r generalizing j with
  | nil => simp
  | cons a as ih =>
    cases j with
    | zero => simp [cell]
    | succ n =>
      have h := ih n
      simp only [cell, List.getD_cons_succ] at h ⊢
      show a :: as.set n (as.getD n Value.na) = a :: as
      rw [h]

theorem cell_of_le {r : List Value} {j : Nat} (h : r.length ≤ j) : cell r j = Value.na := by
  simp [cell, List.getD_eq_getElem?_getD, List.getElem?_eq_none h]

theorem set_of_le {r : List Value} {j : Nat} (v : Value) (h : r.length ≤ j) : r.set j v = r :=
  List.set_eq_of_length_le h

/-! ### `toDatetime` lemmas -/

theorem toDatetime_ok_cases {v w : Value} (h : toDatetime v = Except.ok w) :
    w = Value.naT ∨ ∃ d, w = Value.ts d := by
  cases v with
  | na => simp [toDatetime] at h; simp [← h]
  | naT => simp [toDatetime] at h; simp [← h]
  | num q => simp [toDatetime] at h; exact Or.inr ⟨_, h.symm⟩
  | ts d => simp [toDatetime] at h; exact Or.inr ⟨_, h.symm⟩
  | str s =>
    simp only [toDatetime] at h
    cases hp : parseDate s with
    | none => rw [hp] at h; simp at h
    | some d => rw [hp] at h; simp at h; exact Or.inr ⟨_, h.symm⟩

theorem toDatetime_error_cases {v w : Value} (h : toDatetime v = Except.error w) :
    ∃ s, v = Value.str s ∧ w = Value.str s ∧ parseDate s = none := by
  cases v with
  | na => simp [toDatetime] at h
  | naT => simp [toDatetime] at h
  | num q => simp [toDatetime] at h
  | ts d => simp [toDatetime] at h
  | str s =>
    simp only [toDatetime] at h
    cases hp : parseDate s with
    | none => exact ⟨s, rfl, by rw [hp] at h; simpa using h.symm, hp⟩
    | some d => rw [hp] at h; simp at h

theorem toDatetime_idem {v w : Value} (h : toDatetime v = Except.ok w) :
    toDatetime w = Except.ok w := by
  rcases toDatetime_ok_cases h with h1 | ⟨d, h1⟩ <;> subst h1 <;> rfl

theorem toDatetime_str_bad {s : String} (h : parseDate s = none) :
    toDatetime (Value.str s) = Except.error (Value.str s) := by
  simp [toDatetime, h]

/-! ### `convertRows` lemmas -/

theorem convertRows_length : ∀ {rows rows1 : List (List Value)} {dj i : Nat},
    convertRows rows dj i = Except.ok rows1 → rows1.length = rows.length := by
  intro rows
  induction rows with
  | nil => intro rows1 dj i h; simp [convertRows] at h; simp [← h]
  | cons r rs ih =>
    intro rows1 dj i h
    simp only [convertRows] at h
    cases htd : toDatetime (cell r dj) with
    | error v => rw [htd] at h; simp at h
    | ok v =>
      rw [htd] at h
      cases hc : convertRows rs dj (i + 1) with
      | error e => rw [hc] at h; simp at h
      | ok rest =>
        rw [hc] at h
        simp only [Except.ok.injEq] at h
        rw [← h]
        simp [ih hc]

theorem convertRows_get : ∀ {rows rows1 : List (List Value)} {dj i : Nat},
    convertRows rows dj i = Except.ok rows1 →
    ∀ (k : Nat) (r : List Value), rows[k]? = some r →
      ∃ v, toDatetime (cell r dj) = Except.ok v ∧ rows1[k]? = some (r.set dj v) := by
  intro rows
  induction rows with
  | nil => intro rows1 dj i h k r hk; simp at hk
  | cons r0 rs ih =>
    intro rows1 dj i h k r hk
    simp only [convertRows] at h
    cases htd : toDatetime (cell r0 dj) with
    | error v => rw [htd] at h; simp at h
    | ok v =>
      rw [htd] at h
      cases hc : convertRows rs dj (i + 1) with
      | error e => rw [hc] at h; simp at h
      | ok rest =>
        rw [hc] at h
        simp only [Except.ok.injEq] at h
        cases k with
        | zero =>
          simp only [List.getElem?_cons_zero, Option.some.injEq] at hk
          subst hk
          exact ⟨v, htd, by rw [← h]; simp⟩
        | succ n =>
          simp only [List.getElem?_cons_succ] at hk
          obtain ⟨w, hw, hres⟩ := ih hc n r hk
          exact ⟨w, hw, by rw [← h]; simpa using hres⟩

theorem convertRows_id {rows : List (List Value)} {dj : Nat}
    (h : ∀ r ∈ rows, ∃ v, toDatetime (cell r dj) = Except.ok v ∧ r.set dj v = r) :
    ∀ i, convertRows rows dj i = Except.ok rows := by
  induction rows with
  | nil => intro i; rfl
  | cons r rs ih =>
    intro i
    obtain ⟨v, hv, hset⟩ := h r (by simp)
    simp only [convertRows, hv, ih (fun r hr => h r (by simp [hr])) (i + 1), hset]

theorem convertRows_ok_exists {rows : List (List Value)} {dj : Nat}
    (h : ∀ r ∈ rows, ∃ v, toDatetime (cell r dj) = Except.ok v) :
    ∀ i, ∃ rows1, convertRows rows dj i = Except.ok rows1 := by
  induction rows with
  | nil => intro i; exact ⟨[], rfl⟩
  | cons r rs ih =>
    intro i
    obtain ⟨v, hv⟩ := h r (by simp)
    obtain ⟨rest, hrest⟩ := ih (fun r hr => h r (by simp [hr])) (i + 1)
    exact ⟨r.set dj v :: rest, by simp only [convertRows, hv, hrest]⟩

theorem convertRows_error_of_bad : ∀ {rows : List (List Value)} {dj i k : Nat} {r : List Value} {s : String},
    rows[k]? = some r → cell r dj = Value.str s → parseDate s = none →
    ∃ n w, convertRows rows dj i = Except.error (CleanErr.parseError n w) ∧
      ∃ k' r', n = i + k' ∧ rows[k']? = some r' ∧ cell r' dj = w ∧
        ∃ s', w = Value.str s' ∧ parseDate s' = none := by
  intro rows
  induction rows with
  | nil => intro dj i k r s hk _ _; simp at hk
  | cons r0 rs ih =>
    intro dj i k r s hk hs hbad
    cases htd : toDatetime (cell r0 dj) with
    | error w =>
      obtain ⟨s0, hv0, hw0, hp0⟩ := toDatetime_error_cases htd
      refine ⟨i, w, ?_, 0, r0, by omega, by simp, by rw [hv0, hw0], s0, hw0, hp0⟩
      simp only [convertRows, htd]
    | ok v =>
      cases k with
      | zero =>
        simp only [List.getElem?_cons_zero, Option.some.injEq] at hk
        subst hk
        rw [hs, toDatetime_str_bad hbad] at htd
        simp at htd
      | succ n =>
        simp only [List.getElem?_cons_succ] at hk
        obtain ⟨n', w, herr, k', r', hn', hk', hc', hstr⟩ := @ih dj (i + 1) n r s hk hs hbad
        refine ⟨n', w, ?_, k' + 1, r', by omega, by simpa using hk', hc', hstr⟩
        simp only [convertRows, htd, herr]

/-! ### Imputation-loop lemmas -/

theorem fillRow_none (j : Nat) (r : List Value) : fillRow none j r = r := rfl

theorem fillRow_cell_ne {j j' : Nat} (m? : Option ℚ) (r : List Value) (h : j ≠ j') :
    cell (fillRow m? j r) j' = cell r j' := by
  cases m? with
  | none => rfl
  | some m => exact cell_set_ne r _ h

theorem fillRow_length (m? : Option ℚ) (j : Nat) (r : List Value) :
    (fillRow m? j r).length = r.length := by
  cases m? with
  | none => rfl
  | some m => simp [fillRow]

theorem fillRow_cell_lt {j : Nat} {r : List Value} (m? : Option ℚ) (h : j < r.length) :
    cell (fillRow m? j r) j = fillVal m? (cell r j) := by
  cases m? with
  | none =>
    show cell r j = fillVal none (cell r j)
    cases cell r j <;> rfl
  | some m => cases hv : cell r j <;> simp [fillRow, hv, cell_set_lt _ h, fillVal]

theorem fillCol_header (df : DF) (j : Nat) : (fillCol df j).header = df.header := by
  unfold fillCol
  cases colMean (colCells df j) <;> rfl

theorem fillCol_get (df : DF) (j k : Nat) :
    (fillCol df j).rows[k]? = (df.rows[k]?).map (fillRow (colMean (colCells df j)) j) := by
  unfold fillCol
  cases hm : colMean (colCells df j) with
  | none =>
    show df.rows[k]? = (df.rows[k]?).map (fillRow none j)
    cases df.rows[k]? <;> simp [fillRow_none]
  | some m => simp

theorem fillCol_length (df : DF) (j : Nat) : (fillCol df j).rows.length = df.rows.length := by
  unfold fillCol
  cases colMean (colCells df j) <;> simp

theorem colCells_fillCol_ne (df : DF) {j j' : Nat} (h : j' ≠ j) :
    colCells (fillCol df j) j' = colCells df j' := by
  unfold fillCol
  cases colMean (colCells df j) with
  | none => rfl
  | some m =>
    show (df.rows.map (fillRow (some m) j)).map (fun r => cell r j') = _
    rw [List.map_map]
    exact List.map_congr_left (fun r _ => fillRow_cell_ne _ r (fun e => h e.symm))

theorem foldl_fillCol_header : ∀ (js : List Nat) (df : DF),
    (js.foldl fillCol df).header = df.header := by
  intro js
  induction js with
  | nil => intro df; rfl
  | cons j js ih => intro df; rw [List.foldl_cons, ih, fillCol_header]

theorem foldl_fillCol_get : ∀ (js : List Nat), js.Nodup → ∀ (df : DF) (k : Nat),
    (js.foldl fillCol df).rows[k]? =
      (df.rows[k]?).map (fun r =>
        js.foldl (fun r j => fillRow (colMean (colCells df j)) j r) r) := by
  intro js
  induction js with
  | nil =>
    intro _ df k
    rcases hx : df.rows[k]? with _ | r
    · simp [hx]
    · simp [hx]
  | cons j js ih =>
    intro hnd df k
    have hj : j ∉ js := (List.nodup_cons.mp hnd).1
    rw [List.foldl_cons, ih (List.nodup_cons.mp hnd).2 (fillCol df j) k]
    have hext : ∀ r, js.foldl (fun r j' => fillRow (colMean (colCells (fillCol df j) j')) j' r) r =
        js.foldl (fun r j' => fillRow (colMean (colCells df j')) j' r) r := by
      intro r
      exact List.foldl_ext _ _ r (fun r' j' hj' => by
        rw [colCells_fillCol_ne df (fun e => hj (by rwa [e] at hj'))])
    rw [fillCol_get, Option.map_map]
    cases df.rows[k]? with
    | none => rfl
    | some r => simp [hext]

theorem numIdxs_nodup (df : DF) : (numIdxs df).Nodup :=
  (List.nodup_range _).filter _

theorem mem_numIdxs {df : DF} {j : Nat} :
    j ∈ numIdxs df ↔ j < df.header.length ∧ isNumCol (colCells df j) = true := by
  simp [numIdxs, List.mem_filter, List.mem_range]

theorem mem_objIdxs {df : DF} {dj j : Nat} :
    j ∈ objIdxs df dj ↔ j < df.header.length ∧ isNumCol (colCells df j) = false ∧ j ≠ dj := by
  simp only [objIdxs, List.mem_filter, List.mem_range, decide_eq_true_eq]
  constructor
  · rintro ⟨h1, h2, h3⟩
    exact ⟨h1, by simpa using h2, h3⟩
  · rintro ⟨h1, h2, h3⟩
    exact ⟨h1, by simp [h2], h3⟩

theorem multiFill_length (df1 : DF) (r : List Value) : (multiFill df1 r).length = r.length := by
  unfold multiFill
  generalize numIdxs df1 = js
  induction js generalizing r with
  | nil => rfl
  | cons j js ih => rw [List.foldl_cons, ih, fillRow_length]

theorem fills_cell_not_mem {df1 : DF} {j : Nat} :
    ∀ {js : List Nat}, j ∉ js → ∀ (r : List Value),
      cell (js.foldl (fun r j' => fillRow (colMean (colCells df1 j')) j' r) r) j = cell r j := by
  intro js
  induction js with
  | nil => intro _ r; rfl
  | cons j' js ih =>
    intro hj r
    rw [List.foldl_cons, ih (fun h => hj (List.mem_cons_of_mem _ h)),
      fillRow_cell_ne _ r (fun e => hj (by rw [e]; exact List.mem_cons_self _ _))]

theorem multiFill_cell_not_mem {df1 : DF} {j : Nat} (h : j ∉ numIdxs df1) (r : List Value) :
    cell (multiFill df1 r) j = cell r j :=
  fills_cell_not_mem h r

theorem fills_cell_mem {df1 : DF} {j : Nat} :
    ∀ {js : List Nat}, js.Nodup → j ∈ js → ∀ (r : List Value), j < r.length →
      cell (js.foldl (fun r j' => fillRow (colMean (colCells df1 j')) j' r) r) j =
        fillVal (colMean (colCells df1 j)) (cell r j) := by
  intro js
  induction js with
  | nil => intro _ h; cases h
  | cons j' js ih =>
    intro hnd hmem r hlt
    rw [List.foldl_cons]
    rcases List.mem_cons.mp hmem with he | hm
    · subst he
      rw [fills_cell_not_mem (List.nodup_cons.mp hnd).1,
        fillRow_cell_lt _ hlt]
    · have hne : j' ≠ j := fun e => (List.nodup_cons.mp hnd).1 (by rwa [e])
      rw [ih (List.nodup_cons.mp hnd).2 hm _ (by rwa [fillRow_length]),
        fillRow_cell_ne _ r hne]

theorem multiFill_cell_mem {df1 : DF} {j : Nat} (h : j ∈ numIdxs df1) (r : List Value)
    (hlt : j < r.length) :
    cell (multiFill df1 r) j = fillVal (colMean (colCells df1 j)) (cell r j) :=
  fills_cell_mem (numIdxs_nodup df1) h r hlt

theorem cleanStage2_header (df1 : DF) : (cleanStage2 df1).header = df1.header :=
  foldl_fillCol_header _ df1

theorem cleanStage2_rows (df1 : DF) : (cleanStage2 df1).rows = df1.rows.map (multiFill df1) := by
  apply List.ext_getElem?
  intro k
  rw [List.getElem?_map]
  exact foldl_fillCol_get (numIdxs df1) (numIdxs_nodup df1) df1 k

theorem cleanStage2_length (df1 : DF) : (cleanStage2 df1).rows.length = df1.rows.length := by
  rw [cleanStage2_rows, List.length_map]

theorem cleanStage2_colCells_not_mem {df1 : DF} {j : Nat} (h : j ∉ numIdxs df1) :
    colCells (cleanStage2 df1) j = colCells df1 j := by
  unfold colCells
  rw [cleanStage2_rows, List.map_map]
  exact List.map_congr_left (fun r _ => multiFill_cell_not_mem h r)

theorem cleanStage2_colCells_mem {df1 : DF} (hwf : wf df1 = true) {j : Nat}
    (h : j ∈ numIdxs df1) :
    colCells (cleanStage2 df1) j =
      (colCells df1 j).map (fillVal (colMean (colCells df1 j))) := by
  unfold colCells
  rw [cleanStage2_rows, List.map_map, List.map_map]
  apply List.map_congr_left
  intro r hr
  have hlen : r.length = df1.header.length := by
    have := List.all_eq_true.mp hwf r hr
    simpa using this
  exact multiFill_cell_mem h r (by rw [hlen]; exact (mem_numIdxs.mp h).1)

/-! ### `dropNaRows`, `cleanStage1` and `clean_data` lemmas -/

theorem dropNaRows_header (df : DF) (js : List Nat) : (dropNaRows df js).header = df.header := rfl

theorem dropNaRows_sublist (df : DF) (js : List Nat) :
    (dropNaRows df js).rows.Sublist df.rows := List.filter_sublist _

theorem dropNaRows_length_le (df : DF) (js : List Nat) :
    (dropNaRows df js).rows.length ≤ df.rows.length := List.length_filter_le _ _

theorem mem_dropNaRows {df : DF} {js : List Nat} {r : List Value} :
    r ∈ (dropNaRows df js).rows ↔ r ∈ df.rows ∧ ∀ j ∈ js, isNAv (cell r j) = false := by
  simp only [dropNaRows, List.mem_filter, List.all_eq_true, decide_eq_true_eq]
  constructor
  · rintro ⟨h1, h2⟩
    exact ⟨h1, fun j hj => by simpa using h2 j hj⟩
  · rintro ⟨h1, h2⟩
    exact ⟨h1, fun j hj => by simp [h2 j hj]⟩

theorem dropNaRows_eq_self {df : DF} {js : List Nat}
    (h : ∀ r ∈ df.rows, ∀ j ∈ js, isNAv (cell r j) = false) :
    dropNaRows df js = df := by
  unfold dropNaRows
  have heq : df.rows.filter (fun r => js.all (fun j => ¬ isNAv (cell r j))) = df.rows := by
    apply List.filter_eq_self.mpr
    intro r hr
    simp only [List.all_eq_true, decide_eq_true_eq]
    intro j hj
    simp [h r hr j hj]
  rw [heq]

theorem length_of_getElem?_eq_some {α : Type} {l : List α} {k : Nat} {a : α}
    (h : l[k]? = some a) : k < l.length := by
  by_contra hc
  rw [List.getElem?_eq_none (by omega)] at h
  cases h

theorem cleanStage1_elim {df : DF} {dc : String} {df1 : DF}
    (h : cleanStage1 df dc = Except.ok df1) :
    df1.header = df.header ∧
    convertRows df.rows (df.header.indexOf dc) 0 = Except.ok df1.rows := by
  unfold cleanStage1 at h
  cases hc : convertRows df.rows (df.header.indexOf dc) 0 with
  | error e => rw [hc] at h; simp at h
  | ok rows1 =>
    rw [hc] at h
    simp only [Except.ok.injEq] at h
    rw [← h]
    exact ⟨rfl, rfl⟩

theorem cleanStage1_length {df : DF} {dc : String} {df1 : DF}
    (h : cleanStage1 df dc = Except.ok df1) : df1.rows.length = df.rows.length :=
  convertRows_length (cleanStage1_elim h).2

theorem cleanStage1_get {df : DF} {dc : String} {df1 : DF}
    (h : cleanStage1 df dc = Except.ok df1) (k : Nat) (r : List Value)
    (hk : df.rows[k]? = some r) :
    ∃ v, toDatetime (cell r (df.header.indexOf dc)) = Except.ok v ∧
      df1.rows[k]? = some (r.set (df.header.indexOf dc) v) :=
  convertRows_get (cleanStage1_elim h).2 k r hk

theorem cleanStage1_mem {df : DF} {dc : String} {df1 : DF}
    (h : cleanStage1 df dc = Except.ok df1) (r1 : List Value) (hr : r1 ∈ df1.rows) :
    ∃ r ∈ df.rows, ∃ v, toDatetime (cell r (df.header.indexOf dc)) = Except.ok v ∧
      r1 = r.set (df.header.indexOf dc) v := by
  obtain ⟨k, hk⟩ := List.mem_iff_getElem?.mp hr
  have hlt : k < df.rows.length := by
    have h1 := length_of_getElem?_eq_some hk
    rwa [cleanStage1_length h] at h1
  have hr0 : df.rows[k]? = some (df.rows[k]) := List.getElem?_eq_getElem hlt
  obtain ⟨v, hv, hk1⟩ := cleanStage1_get h k _ hr0
  rw [hk] at hk1
  injection hk1 with hk1
  exact ⟨df.rows[k], List.getElem_mem hlt, v, hv, hk1⟩

theorem clean_data_ok_elim {df : DF} {dc : String} {st ret : DF}
    (h : clean_data df dc = Except.ok (st, ret)) :
    dc ∈ df.header ∧ ∃ df1, cleanStage1 df dc = Except.ok df1 ∧ st = cleanStage2 df1 ∧
      ret = dropNaRows (cleanStage2 df1) (objIdxs df1 (df.header.indexOf dc)) := by
  unfold clean_data at h
  split at h
  case isTrue hdc =>
    cases h1 : cleanStage1 df dc with
    | error e => rw [h1] at h; simp at h
    | ok df1 =>
      rw [h1] at h
      simp only [Except.ok.injEq, Prod.mk.injEq] at h
      exact ⟨hdc, df1, rfl, h.1.symm, h.2.symm⟩
  case isFalse => simp at h

theorem clean_data_ok_intro {df : DF} {dc : String} {df1 : DF}
    (hdc : dc ∈ df.header) (h1 : cleanStage1 df dc = Except.ok df1) :
    clean_data df dc = Except.ok (cleanStage2 df1,
      dropNaRows (cleanStage2 df1) (objIdxs df1 (df.header.indexOf dc))) := by
  unfold clean_data
  rw [if_pos hdc, h1]

theorem clean_data_error_intro {df : DF} {dc : String} {e : CleanErr} (hdc : dc ∈ df.header)
    (h : convertRows df.rows (df.header.indexOf dc) 0 = Except.error e) :
    clean_data df dc = Except.error e := by
  unfold clean_data cleanStage1
  rw [if_pos hdc, h]

theorem fills_cell_mean_none {df1 : DF} {j : Nat} (hm : colMean (colCells df1 j) = none) :
    ∀ (js : List Nat) (r : List Value),
      cell (js.foldl (fun r j' => fillRow (colMean (colCells df1 j')) j' r) r) j = cell r j := by
  intro js
  induction js with
  | nil => intro r; rfl
  | cons j' js ih =>
    intro r
    rw [List.foldl_cons, ih]
    by_cases he : j' = j
    · subst he
      rw [hm, fillRow_none]
    · exact fillRow_cell_ne _ r he

theorem multiFill_cell_mean_none {df1 : DF} {j : Nat} (hm : colMean (colCells df1 j) = none)
    (r : List Value) : cell (multiFill df1 r) j = cell r j :=
  fills_cell_mean_none hm (numIdxs df1) r

theorem numVals_nil_all_na {cs : List Value} (hnum : isNumCol cs = true)
    (hempty : numVals cs = []) : ∀ v ∈ cs, v = Value.na := by
  intro v hv
  have h1 := List.all_eq_true.mp hnum v hv
  have h2 := List.filterMap_eq_nil_iff.mp hempty v hv
  cases v <;> simp_all [isNumCell]

theorem colMean_none_of_numVals_nil {cs : List Value} (h : numVals cs = []) :
    colMean cs = none := by
  simp [colMean, h]

theorem colMean_some_of_numVals_ne_nil {cs : List Value} (h : numVals cs ≠ []) :
    colMean cs = some ((numVals cs).sum / (numVals cs).length) := by
  simp only [colMean]
  rw [if_neg (by simpa using h)]

theorem wf_cleanStage1 {df : DF} {dc : String} {df1 : DF} (hwf : wf df = true)
    (h : cleanStage1 df dc = Except.ok df1) : wf df1 = true := by
  apply List.all_eq_true.mpr
  intro r1 hr1
  obtain ⟨r, hr, v, _, heq⟩ := cleanStage1_mem h r1 hr1
  have hlen := List.all_eq_true.mp hwf r hr
  rw [(cleanStage1_elim h).1, heq]
  simpa using hlen

theorem toDatetime_str_ok {s : String} {v : Value} (h : toDatetime (Value.str s) = Except.ok v) :
    ∃ d, v = Value.ts d ∧ parseDate s = some d := by
  simp only [toDatetime] at h
  cases hp : parseDate s with
  | none => rw [hp] at h; cases h
  | some d =>
    rw [hp] at h
    simp only [Except.ok.injEq] at h
    exact ⟨d, h.symm, rfl⟩

/-- C2 (amended): whenever the designated date column contains a text value
that cannot be parsed into a timestamp, `clean` fails with a ParseError
naming the offending row and value, and the whole call aborts: nothing is
returned, no partial result exists.  (A row whose date value is missing is
not an error: pandas turns it into NaT, see the counterexample.) -/
theorem c2_parse_error_aborts (df : DF) (dc : String) (hdc : dc ∈ df.header)
    (k : Nat) (r : List Value) (s : String)
    (hk : df.rows[k]? = some r)
    (hs : cell r (df.header.indexOf dc) = Value.str s)
    (hbad : parseDate s = none) :
    ∃ n w, clean_data df dc = Except.error (CleanErr.parseError n w) ∧
      (∃ r', df.rows[n]? = some r' ∧ cell r' (df.header.indexOf dc) = w) ∧
      ∃ s', w = Value.str s' ∧ parseDate s' = none := by
  obtain ⟨n, w, herr, k', r', hn, hk', hc', hstr⟩ := convertRows_error_of_bad hk hs hbad
  refine ⟨n, w, clean_data_error_intro hdc herr, ⟨r', ?_, hc'⟩, hstr⟩
  rw [show n = k' from by omega]
  exact hk'

/-- C2 counterexample: a hospitalization record whose `admission_date` is
missing does not make `clean` raise; the call succeeds and the missing date
is silently carried through as NaT (`pd.to_datetime(NaN) = NaT`). -/
theorem c2_missing_date_no_error :
    clean_data c2CexDf "admission_date" = Except.ok (c2CexOut, c2CexOut) := by rfl

/-- C2 witness: the amended theorem applied to a concrete frame with an
unparseable date text. -/
theorem c2_parse_error_aborts_witness :
    ∃ n w, clean_data c2WDf "admission_date" = Except.error (CleanErr.parseError n w) ∧
      (∃ r', c2WDf.rows[n]? = some r' ∧ cell r' (c2WDf.header.indexOf "admission_date") = w) ∧
      ∃ s', w = Value.str s' ∧ parseDate s' = none :=
  c2_parse_error_aborts c2WDf "admission_date" (by decide) 1 [Value.str "bogus"] "bogus"
    (by decide) (by decide) (by decide)

theorem mem_of_getElem?' {α : Type} {l : List α} {k : Nat} {a : α} (h : l[k]? = some a) :
    a ∈ l := by
  have hlt := length_of_getElem?_eq_some h
  rw [List.getElem?_eq_getElem hlt] at h
  injection h with h
  exact h ▸ List.getElem_mem hlt

/-- C3 (amended): an entirely-missing numeric column is not an error.  The
column's mean is NaN, `fillna(NaN)` is a no-op, so `clean` succeeds and the
column is still entirely missing in both the mutated frame and the returned
frame (there is no EmptyColumnError anywhere in the pipeline). -/
theorem c3_all_missing_column_kept (df : DF) (dc : String) (hdc : dc ∈ df.header)
    (df1 : DF) (h1 : cleanStage1 df dc = Except.ok df1)
    (j : Nat) (hj : j ∈ numIdxs df1)
    (hempty : numVals (colCells df1 j) = []) :
    ∃ st ret, clean_data df dc = Except.ok (st, ret) ∧
      colCells st j = colCells df1 j ∧
      (∀ v ∈ colCells df1 j, v = Value.na) ∧
      ∀ v ∈ colCells ret j, v = Value.na := by
  have hmean := colMean_none_of_numVals_nil hempty
  have hcol : colCells (cleanStage2 df1) j = colCells df1 j := by
    unfold colCells
    rw [cleanStage2_rows, List.map_map]
    exact List.map_congr_left (fun r _ => multiFill_cell_mean_none hmean r)
  refine ⟨cleanStage2 df1, _, clean_data_ok_intro hdc h1, hcol, 
    numVals_nil_all_na (mem_numIdxs.mp hj).2 hempty, ?_⟩
  intro v hv
  obtain ⟨r, hr, rfl⟩ := List.mem_map.mp hv
  have hrst : r ∈ (cleanStage2 df1).rows := (mem_dropNaRows.mp hr).1
  have hmem : cell r j ∈ colCells (cleanStage2 df1) j := List.mem_map_of_mem _ hrst
  rw [hcol] at hmem
  exact numVals_nil_all_na (mem_numIdxs.mp hj).2 hempty _ hmem

/-- C3 counterexample: on an input whose numeric column `x` has no
non-missing value, `clean` does not fail — it returns successfully and the
column is still missing in the result. -/
theorem c3_no_empty_column_error :
    clean_data c3CexDf "d" = Except.ok (c3CexOut, c3CexOut) := by rfl

/-- C3 witness: the amended theorem applied to a concrete frame whose
numeric column is entirely missing. -/
theorem c3_all_missing_column_kept_witness :
    ∃ st ret, clean_data c3WDf "d" = Except.ok (st, ret) ∧
      colCells st 1 = colCells c3WDf1 1 ∧
      (∀ v ∈ colCells c3WDf1 1, v = Value.na) ∧
      ∀ v ∈ colCells ret 1, v = Value.na :=
  c3_all_missing_column_kept c3WDf "d" (by decide) c3WDf1 (by rfl) 1 (by decide) (by rfl)

/-- C5: for a numeric column (other than the date column) with at least one
non-missing value, `clean` replaces every missing cell in the caller's frame
with the arithmetic mean of the column's non-missing values computed over
the pre-imputation frame `df1` (the frame right after date conversion), and
leaves non-missing cells unchanged — so successive columns cannot influence
each other's means. -/
theorem c5_imputation_from_original (df : DF) (dc : String) (st ret : DF)
    (hok : clean_data df dc = Except.ok (st, ret))
    (df1 : DF) (h1 : cleanStage1 df dc = Except.ok df1)
    (hwf : wf df = true)
    (j : Nat) (hj : j ∈ numIdxs df1)
    (hne : numVals (colCells df1 j) ≠ []) :
    colCells st j = (colCells df1 j).map (fun v =>
      match v with
      | Value.na => Value.num ((numVals (colCells df1 j)).sum /
          ((numVals (colCells df1 j)).length : ℚ))
      | v => v) := by
  obtain ⟨hdc, df1', h1', hst, hret⟩ := clean_data_ok_elim hok
  rw [h1'] at h1
  injection h1 with h1
  subst h1
  rw [hst, cleanStage2_colCells_mem (wf_cleanStage1 hwf h1') hj,
    colMean_some_of_numVals_ne_nil hne]
  apply List.map_congr_left
  intro v _
  cases v <;> rfl

/-- C5 witness: the spec's Scenario 1 — air-quality rows with pm25 values
10 and missing; applying the theorem shows the imputed column, and both
cells equal 10 (the mean of the single known value). -/
theorem c5_imputation_from_original_witness :
    colCells c5WSt 1 = (colCells c5WDf1 1).map (fun v =>
      match v with
      | Value.na => Value.num ((numVals (colCells c5WDf1 1)).sum /
          ((numVals (colCells c5WDf1 1)).length : ℚ))
      | v => v) ∧
    colCells c5WSt 1 = [Value.num 10, Value.num 10] :=
  ⟨c5_imputation_from_original c5WDf "timestamp" c5WSt c5WSt (by with_unfolding_all rfl)
    c5WDf1 (by rfl) (by rfl) 1 (by decide) (by decide), by rfl⟩

/-- C6 (amended): `clean` is not a pure transform.  The date conversion and
the numeric imputation are in-place assignments on the caller's frame:
whenever the date column holds a text value, the caller's frame after the
call differs from the input.  Only the categorical row removal is confined
to the returned frame, whose rows are a sublist of the mutated frame's. -/
theorem c6_not_pure (df : DF) (dc : String) (st ret : DF)
    (hok : clean_data df dc = Except.ok (st, ret))
    (k : Nat) (r : List Value) (s : String)
    (hk : df.rows[k]? = some r)
    (hs : cell r (df.header.indexOf dc) = Value.str s) :
    st ≠ df ∧ ret.rows.Sublist st.rows := by
  obtain ⟨hdc, df1, h1, hst, hret⟩ := clean_data_ok_elim hok
  constructor
  · obtain ⟨v, hv, hk1⟩ := cleanStage1_get h1 k r hk
    rw [hs] at hv
    obtain ⟨d, hd, hp⟩ := toDatetime_str_ok hv
    subst hd
    have hdjlt : df.header.indexOf dc < r.length := by
      by_contra hc
      rw [cell_of_le (by omega)] at hs
      cases hs
    have hcell1 : cell (r.set (df.header.indexOf dc) (Value.ts d))
        (df.header.indexOf dc) = Value.ts d := cell_set_lt _ hdjlt
    have hmem1 : r.set (df.header.indexOf dc) (Value.ts d) ∈ df1.rows :=
      mem_of_getElem?' hk1
    have hnotnum : df.header.indexOf dc ∉ numIdxs df1 := by
      intro hmem
      have hno := (mem_numIdxs.mp hmem).2
      have hval : cell (r.set (df.header.indexOf dc) (Value.ts d)) (df.header.indexOf dc)
          ∈ colCells df1 (df.header.indexOf dc) := List.mem_map_of_mem _ hmem1
      have := List.all_eq_true.mp hno _ hval
      rw [hcell1] at this
      cases this
    intro he
    have hstk : st.rows[k]? =
        some (multiFill df1 (r.set (df.header.indexOf dc) (Value.ts d))) := by
      rw [hst, cleanStage2_rows, List.getElem?_map, hk1]
      rfl
    rw [he, hk] at hstk
    injection hstk with hstk
    have hcr : cell r (df.header.indexOf dc) = Value.ts d := by
      rw [hstk, multiFill_cell_not_mem hnotnum, hcell1]
    rw [hs] at hcr
    cases hcr
  · rw [hret, hst]
    exact dropNaRows_sublist _ _

/-- C6 counterexample: a concrete call after which the caller's frame is
changed — the date text has been converted in place — so `clean` is not a
pure transform that leaves its argument unchanged. -/
theorem c6_cex_argument_changed :
    clean_data c6CexDf "d" = Except.ok (c6CexSt, c6CexSt) ∧ c6CexSt ≠ c6CexDf := by
  constructor
  · rfl
  · decide

/-- C6 witness: the amended theorem applied to a concrete frame whose date
column holds a text date. -/
theorem c6_not_pure_witness : c6WSt ≠ c6WDf ∧ c6WSt.rows.Sublist c6WSt.rows :=
  c6_not_pure c6WDf "d" c6WSt c6WSt (by rfl) 0 [Value.str "2024-01-05", Value.num 3]
    "2024-01-05" (by rfl) (by rfl)

theorem toDatetime_ok_not_missing {v w : Value} (h : toDatetime v = Except.ok w)
    (hnm : isNAv v = false) : ∃ d, w = Value.ts d := by
  cases v with
  | na => cases hnm
  | naT => cases hnm
  | num q => simp only [toDatetime, Except.ok.injEq] at h; exact ⟨_, h.symm⟩
  | ts d => simp only [toDatetime, Except.ok.injEq] at h; exact ⟨_, h.symm⟩
  | str s => obtain ⟨d, hd, _⟩ := toDatetime_str_ok h; exact ⟨d, hd⟩

theorem indexOf_lt_of_mem {dc : String} {l : List String} (h : dc ∈ l) :
    l.indexOf dc < l.length := List.indexOf_lt_length.mpr h

/-- C4 (amended): whenever `clean` succeeds, the returned record set keeps
the input's column set and has at most as many rows, with equality when the
input has no missing value in any categorical/text column; and the result
has no missing value anywhere provided additionally that the input's date
column has no missing value and every numeric column has at least one
non-missing value (otherwise NaT survives in the date column, or an
all-missing numeric column survives, see the counterexample). -/
theorem c4_output_invariants (df : DF) (dc : String) (st ret : DF)
    (hok : clean_data df dc = Except.ok (st, ret))
    (df1 : DF) (h1 : cleanStage1 df dc = Except.ok df1) :
    ret.header = df.header ∧
    ret.rows.length ≤ df.rows.length ∧
    ((∀ r ∈ df.rows, ∀ j ∈ objIdxs df1 (df.header.indexOf dc), isNAv (cell r j) = false) →
      ret.rows.length = df.rows.length) ∧
    (wf df = true →
     (∀ r ∈ df.rows, isNAv (cell r (df.header.indexOf dc)) = false) →
     (∀ j ∈ numIdxs df1, numVals (colCells df1 j) ≠ []) →
     ∀ r ∈ ret.rows, ∀ j, j < ret.header.length → isNAv (cell r j) = false) := by
  obtain ⟨hdc, df1', h1', hst, hret⟩ := clean_data_ok_elim hok
  obtain rfl : df1 = df1' := by rw [h1'] at h1; injection h1 with h; exact h.symm
  have hs1 := cleanStage1_elim h1'
  have hsth : st.header = df.header := by rw [hst, cleanStage2_header, hs1.1]
  have hreth : ret.header = df.header := by rw [hret, dropNaRows_header, cleanStage2_header, hs1.1]
  have hstlen : st.rows.length = df.rows.length := by
    rw [hst, cleanStage2_length, cleanStage1_length h1']
  rw [← hst] at hret
  -- membership decomposition of st rows
  have hstmem : ∀ r2 ∈ st.rows, ∃ r1 ∈ df1.rows, r2 = multiFill df1 r1 := by
    intro r2 hr2
    rw [hst, cleanStage2_rows] at hr2
    obtain ⟨r1, hr1, heq⟩ := List.mem_map.mp hr2
    exact ⟨r1, hr1, heq.symm⟩
  refine ⟨hreth, ?_, ?_, ?_⟩
  · rw [hret, ← hstlen]
    exact dropNaRows_length_le _ _

  · intro hobj
    have hall : ∀ r2 ∈ st.rows, ∀ j ∈ objIdxs df1 (df.header.indexOf dc),
        isNAv (cell r2 j) = false := by
      intro r2 hr2 j hj
      obtain ⟨r1, hr1, heq⟩ := hstmem r2 hr2
      obtain ⟨r0, hr0, v, hv, heq1⟩ := cleanStage1_mem h1' r1 hr1
      have hjnum : j ∉ numIdxs df1 := by
        intro hmem
        have h1 := (mem_numIdxs.mp hmem).2
        have h2 := (mem_objIdxs.mp hj).2.1
        rw [h1] at h2
        cases h2
      have hjdc : j ≠ df.header.indexOf dc := (mem_objIdxs.mp hj).2.2
      rw [heq, multiFill_cell_not_mem hjnum, heq1,
        cell_set_ne _ _ (fun e => hjdc e.symm)]
      exact hobj r0 hr0 j hj
    rw [hret, dropNaRows_eq_self (fun r hr j hj => hall r hr j hj)]
    exact hstlen
  · intro hwf hdates hnume r hr j hjlt
    rw [hreth] at hjlt
    rw [hret] at hr
    have hrst := (mem_dropNaRows.mp hr).1
    have hpred := (mem_dropNaRows.mp hr).2
    obtain ⟨r1, hr1, heq⟩ := hstmem r hrst
    obtain ⟨r0, hr0, v, hv, heq1⟩ := cleanStage1_mem h1' r1 hr1
    have hwf1 := wf_cleanStage1 hwf h1'
    have hr1len : r1.length = df.header.length := by
      have := List.all_eq_true.mp hwf1 r1 hr1
      rw [hs1.1] at this
      simpa using this
    have hrlen : r.length = df.header.length := by
      rw [heq, multiFill_length, hr1len]
    by_cases hjdc : j = df.header.indexOf dc
    · -- date column: the converted value is a timestamp
      subst hjdc
      have hnm := hdates r0 hr0
      obtain ⟨d, hd⟩ := toDatetime_ok_not_missing hv hnm
      subst hd
      have hr0len : r0.length = df.header.length := by
        have := List.all_eq_true.mp hwf r0 hr0
        simpa using this
      have hcell1 : cell r1 (df.header.indexOf dc) = Value.ts d := by
        rw [heq1]
        exact cell_set_lt _ (by rw [hr0len]; exact indexOf_lt_of_mem hdc)
      have hdjnot : df.header.indexOf dc ∉ numIdxs df1 := by
        intro hmem
        have hall := (mem_numIdxs.mp hmem).2
        have hmemc : cell r1 (df.header.indexOf dc) ∈ colCells df1 (df.header.indexOf dc) :=
          List.mem_map_of_mem _ hr1
        have := List.all_eq_true.mp hall _ hmemc
        rw [hcell1] at this
        cases this
      rw [heq, multiFill_cell_not_mem hdjnot, hcell1]
      rfl
    · by_cases hjnum : j ∈ numIdxs df1
      · have hsome := colMean_some_of_numVals_ne_nil (hnume j hjnum)
        have hcell := multiFill_cell_mem hjnum r1 (by rw [hr1len]; exact hjlt)
        rw [heq, hcell, hsome]
        have hnumcell : isNumCell (cell r1 j) = true := by
          have hall := (mem_numIdxs.mp hjnum).2
          exact List.all_eq_true.mp hall _ (List.mem_map_of_mem _ hr1)
        cases hc : cell r1 j <;> simp_all [isNumCell, fillVal, isNAv]
      · have hjobj : j ∈ objIdxs df1 (df.header.indexOf dc) := by
          apply mem_objIdxs.mpr
          refine ⟨by rw [hs1.1]; exact hjlt, ?_, hjdc⟩
          cases hh : isNumCol (colCells df1 j)
          · rfl
          · exact absurd (mem_numIdxs.mpr ⟨by rw [hs1.1]; exact hjlt, hh⟩) hjnum
        exact hpred j hjobj

/-- C4 counterexample: `clean` succeeds on a frame whose numeric column is
all-missing, and the returned set still contains a missing value — the
"no missing values anywhere" guarantee of the claim is false. -/
theorem c4_cex_missing_value_in_output :
    clean_data c4CexDf "d" = Except.ok (c4CexOut, c4CexOut) ∧
      isNAv (cell (c4CexOut.rows.getD 0 []) 1) = true := ⟨rfl, rfl⟩

/-- C4 witness: the amended theorem applied to a concrete well-formed frame
with no missing values at all, giving equal row count, unchanged header and
a fully non-missing result. -/
theorem c4_output_invariants_witness :
    c4WDf1.header = c4WDf.header ∧ c4WDf1.rows.length = c4WDf.rows.length ∧
      ∀ r ∈ c4WDf1.rows, ∀ j, j < c4WDf1.header.length → isNAv (cell r j) = false := by
  obtain ⟨ha, _, hc, hd⟩ := c4_output_invariants c4WDf "d" c4WDf1 c4WDf1
    (by with_unfolding_all rfl) c4WDf1 (by rfl)
  exact ⟨ha, hc (by decide), hd (by rfl) (by decide) (by decide)⟩

theorem foldl_fillCol_id : ∀ {js : List Nat} {df : DF}, (∀ j ∈ js, fillCol df j = df) →
    js.foldl fillCol df = df := by
  intro js
  induction js with
  | nil => intro df _; rfl
  | cons j js ih =>
    intro df h
    rw [List.foldl_cons, h j (by simp)]
    exact ih (fun j' hj' => h j' (by simp [hj']))

theorem fillCol_eq_self {df : DF} {j : Nat}
    (h : ∀ r ∈ df.rows, fillRow (colMean (colCells df j)) j r = r) : fillCol df j = df := by
  unfold fillCol
  cases hm : colMean (colCells df j) with
  | none => rfl
  | some m =>
    have h2 : ∀ r ∈ df.rows, fillRow (some m) j r = r := fun r hr => by
      rw [← hm]; exact h r hr
    show ({ header := df.header, rows := df.rows.map (fillRow (some m) j) } : DF) = df
    rw [List.map_congr_left h2, List.map_id']

theorem cleanStage1_id {dfR : DF} {dc : String}
    (h : ∀ r ∈ dfR.rows, ∃ v, toDatetime (cell r (dfR.header.indexOf dc)) = Except.ok v ∧
      r.set (dfR.header.indexOf dc) v = r) :
    cleanStage1 dfR dc = Except.ok dfR := by
  unfold cleanStage1
  rw [convertRows_id h 0]

theorem numVals_nil_of_colMean_none {cs : List Value} (h : colMean cs = none) :
    numVals cs = [] := by
  simp only [colMean] at h
  by_cases hl : (numVals cs).length = 0
  · exact List.length_eq_zero.mp hl
  · rw [if_neg hl] at h
    cases h

theorem isNumCell_fillVal {m : ℚ} {v : Value} (h : isNumCell v = true) :
    isNumCell (fillVal (some m) v) = true := by
  cases v <;> simp_all [isNumCell, fillVal]

/-- C7: `clean` is idempotent on its own output.  Re-running `clean` on the
returned record set removes no further row and changes no value: the second
call succeeds and both the mutated state and the returned frame are the
input itself. -/
theorem c7_idempotent (df : DF) (dc : String) (st ret : DF)
    (hok : clean_data df dc = Except.ok (st, ret)) :
    clean_data ret dc = Except.ok (ret, ret) := by
  obtain ⟨hdc, df1, h1, hst, hret⟩ := clean_data_ok_elim hok
  have hs1 := cleanStage1_elim h1
  rw [← hst] at hret
  have hsth : st.header = df.header := by rw [hst, cleanStage2_header, hs1.1]
  have hreth : ret.header = df.header := by rw [hret, dropNaRows_header, hsth]
  set dj := df.header.indexOf dc with hdj
  -- decomposition of the rows of `ret`
  have hdec : ∀ r ∈ ret.rows, ∃ r1 ∈ df1.rows, r = multiFill df1 r1 ∧
      (∀ j ∈ objIdxs df1 dj, isNAv (cell r j) = false) := by
    intro r hr
    rw [hret] at hr
    rcases mem_dropNaRows.mp hr with ⟨hrst, hpred⟩
    rw [hst, cleanStage2_rows] at hrst
    obtain ⟨r1, hr1, heq⟩ := List.mem_map.mp hrst
    exact ⟨r1, hr1, heq.symm, hpred⟩
  -- shape of the date-column cell of a converted row
  have hdf1dj : ∀ r1 ∈ df1.rows, (∃ d, cell r1 dj = Value.ts d) ∨ cell r1 dj = Value.naT ∨
      (cell r1 dj = Value.na ∧ r1.length ≤ dj) := by
    intro r1 hr1
    obtain ⟨r0, hr0, v, hv, heq1⟩ := cleanStage1_mem h1 r1 hr1
    by_cases hlt : dj < r0.length
    · rw [heq1, cell_set_lt _ hlt]
      rcases toDatetime_ok_cases hv with h | ⟨d, h⟩
      · right; left; exact h
      · left; exact ⟨d, h⟩
    · have hle : r0.length ≤ dj := by omega
      have heq0 : r1 = r0 := by rw [heq1, set_of_le _ hle]
      right; right
      rw [heq0]
      exact ⟨cell_of_le hle, hle⟩
  -- the imputation loop leaves the date column unchanged
  have hdjfill : ∀ r1, cell (multiFill df1 r1) dj = cell r1 dj := by
    intro r1
    by_cases hmem : dj ∈ numIdxs df1
    · have hallna : ∀ v ∈ colCells df1 dj, v = Value.na := by
        intro v hv
        obtain ⟨r1', hr1', heq⟩ := List.mem_map.mp hv
        have hnum := List.all_eq_true.mp (mem_numIdxs.mp hmem).2 v hv
        rcases hdf1dj r1' hr1' with ⟨d, hd⟩ | hd | ⟨hd, _⟩
        · rw [heq] at hd; rw [hd] at hnum; cases hnum
        · rw [heq] at hd; rw [hd] at hnum; cases hnum
        · rw [heq] at hd; exact hd
      have hmean : colMean (colCells df1 dj) = none := by
        apply colMean_none_of_numVals_nil
        apply List.filterMap_eq_nil_iff.mpr
        intro v hv
        rw [hallna v hv]
      exact multiFill_cell_mean_none hmean r1
    · exact multiFill_cell_not_mem hmem r1
  -- every `ret` row fixes the date conversion
  have hretdj : ∀ r ∈ ret.rows, ∃ v, toDatetime (cell r dj) = Except.ok v ∧ r.set dj v = r := by
    intro r hr
    obtain ⟨r1, hr1, heq, _⟩ := hdec r hr
    have hcd : cell r dj = cell r1 dj := by rw [heq, hdjfill]
    rcases hdf1dj r1 hr1 with ⟨d, hd⟩ | hd | ⟨hd, hlen⟩
    · refine ⟨Value.ts d, by rw [hcd, hd]; rfl, ?_⟩
      rw [show Value.ts d = cell r dj from (hcd.trans hd).symm]
      exact set_cell_self r dj
    · refine ⟨Value.naT, by rw [hcd, hd]; rfl, ?_⟩
      rw [show Value.naT = cell r dj from (hcd.trans hd).symm]
      exact set_cell_self r dj
    · have hrlen : r.length ≤ dj := by rw [heq, multiFill_length]; exact hlen
      exact ⟨Value.naT, by rw [hcd, hd]; rfl, set_of_le _ hrlen⟩
  have hdcr : dc ∈ ret.header := by rw [hreth]; exact hdc
  have hdjr : ret.header.indexOf dc = dj := by rw [hreth]
  -- stage 1 on `ret` is the identity
  have hs1r : cleanStage1 ret dc = Except.ok ret := by
    apply cleanStage1_id
    rw [hdjr]
    exact hretdj
  -- numeric columns of `df1` have numeric cells in `ret`
  have hretnumcell : ∀ j, j ∈ numIdxs df1 → ∀ r ∈ ret.rows, isNumCell (cell r j) = true := by
    intro j hjn r hr
    obtain ⟨r1, hr1, heq, _⟩ := hdec r hr
    have hnumcell : isNumCell (cell r1 j) = true :=
      List.all_eq_true.mp (mem_numIdxs.mp hjn).2 _ (List.mem_map_of_mem _ hr1)
    cases hm : colMean (colCells df1 j) with
    | none => rw [heq, multiFill_cell_mean_none hm]; exact hnumcell
    | some m =>
      by_cases hlt : j < r.length
      · have hlt1 : j < r1.length := by rw [← multiFill_length df1 r1, ← heq]; exact hlt
        rw [heq, multiFill_cell_mem hjn r1 hlt1, hm]
        exact isNumCell_fillVal hnumcell
      · rw [cell_of_le (by omega)]
        rfl
  -- stage 2 on `ret` is the identity
  have hs2r : cleanStage2 ret = ret := by
    apply foldl_fillCol_id
    intro j hj
    apply fillCol_eq_self
    intro r hr
    cases hm : colMean (colCells ret j) with
    | none => rfl
    | some m =>
      show r.set j (match cell r j with | Value.na => Value.num m | v => v) = r
      cases hcell : cell r j with
      | na =>
        by_cases hlt : j < r.length
        · exfalso
          obtain ⟨r1, hr1, heq, hpred⟩ := hdec r hr
          by_cases hjd : j = dj
          · rw [hjd] at hcell hlt
            have hcd : cell r dj = cell r1 dj := by rw [heq, hdjfill]
            rcases hdf1dj r1 hr1 with ⟨d, hd⟩ | hd | ⟨hd, hlen⟩
            · rw [hcell] at hcd; rw [hd] at hcd; cases hcd
            · rw [hcell] at hcd; rw [hd] at hcd; cases hcd
            · have hrl : r.length ≤ dj := by rw [heq, multiFill_length]; exact hlen
              omega
          · by_cases hjnum1 : j ∈ numIdxs df1
            · cases hm1 : colMean (colCells df1 j) with
              | some m1 =>
                have hlt1 : j < r1.length := by rw [← multiFill_length df1 r1, ← heq]; exact hlt
                have hcellval : cell r j = fillVal (some m1) (cell r1 j) := by
                  rw [heq, multiFill_cell_mem hjnum1 r1 hlt1, hm1]
                have hnumcell : isNumCell (cell r1 j) = true :=
                  List.all_eq_true.mp (mem_numIdxs.mp hjnum1).2 _ (List.mem_map_of_mem _ hr1)
                rw [hcell] at hcellval
                cases hcv : cell r1 j <;> rw [hcv] at hcellval hnumcell <;>
                  simp_all [fillVal, isNumCell]
              | none =>
                have hretmean : colMean (colCells ret j) = none := by
                  apply colMean_none_of_numVals_nil
                  apply List.filterMap_eq_nil_iff.mpr
                  intro v hv
                  obtain ⟨r', hr', heq'⟩ := List.mem_map.mp hv
                  obtain ⟨r1', hr1', heq1', _⟩ := hdec r' hr'
                  have hna : v = Value.na := by
                    rw [← heq', heq1', multiFill_cell_mean_none hm1]
                    exact numVals_nil_all_na (mem_numIdxs.mp hjnum1).2
                      (numVals_nil_of_colMean_none hm1) _ (List.mem_map_of_mem _ hr1')
                  rw [hna]
                rw [hretmean] at hm
                cases hm
            · have hjobj : j ∈ objIdxs df1 dj := by
                apply mem_objIdxs.mpr
                have hjlen : j < df.header.length := by
                  have := (mem_numIdxs.mp hj).1
                  rw [hreth] at this
                  exact this
                refine ⟨by rw [hs1.1]; exact hjlen, ?_, hjd⟩
                cases hnc : isNumCol (colCells df1 j)
                · rfl
                · exact absurd (mem_numIdxs.mpr ⟨by rw [hs1.1]; exact hjlen, hnc⟩) hjnum1
              have := hpred j hjobj
              rw [hcell] at this
              cases this
        · exact set_of_le _ (by omega)
      | naT =>
        show r.set j Value.naT = r
        rw [← hcell]
        exact set_cell_self r j
      | num q =>
        show r.set j (Value.num q) = r
        rw [← hcell]
        exact set_cell_self r j
      | str s2 =>
        show r.set j (Value.str s2) = r
        rw [← hcell]
        exact set_cell_self r j
      | ts d =>
        show r.set j (Value.ts d) = r
        rw [← hcell]
        exact set_cell_self r j
  -- stage 3 on `ret` is the identity
  have hs3r : dropNaRows ret (objIdxs ret (ret.header.indexOf dc)) = ret := by
    apply dropNaRows_eq_self
    intro r hr j hj
    rw [hdjr] at hj
    have hm := mem_objIdxs.mp hj
    have hjobj1 : j ∈ objIdxs df1 dj := by
      apply mem_objIdxs.mpr
      have hjlen : j < df.header.length := by
        have := hm.1
        rw [hreth] at this
        exact this
      refine ⟨by rw [hs1.1]; exact hjlen, ?_, hm.2.2⟩
      cases hnc : isNumCol (colCells df1 j)
      · rfl
      · exfalso
        have hjn : j ∈ numIdxs df1 := mem_numIdxs.mpr ⟨by rw [hs1.1]; exact hjlen, hnc⟩
        have hcol : isNumCol (colCells ret j) = true := by
          apply List.all_eq_true.mpr
          intro v hv
          obtain ⟨r', hr', heq'⟩ := List.mem_map.mp hv
          rw [← heq']
          exact hretnumcell j hjn r' hr'
        rw [hm.2.1] at hcol
        cases hcol
    obtain ⟨_, _, _, hpred⟩ := hdec r hr
    exact hpred j hjobj1
  have hfin := clean_data_ok_intro hdcr hs1r
  rw [hs2r, hs3r] at hfin
  exact hfin

/-- C7 witness: re-running `clean` on the cleaned output of a concrete frame
(with an imputed numeric cell and a dropped row) returns that output
unchanged. -/
theorem c7_idempotent_witness : clean_data c7WRet "d" = Except.ok (c7WRet, c7WRet) :=
  c7_idempotent c7WDf "d" c7WSt c7WRet (by with_unfolding_all rfl)

/-! ### Month-union and resampling lemmas -/

theorem mem_insMonth {a m : Int} : ∀ {l : List Int}, a ∈ insMonth m l ↔ a = m ∨ a ∈ l := by
  intro l
  induction l with
  | nil => simp [insMonth]
  | cons x xs ih =>
    simp only [insMonth]
    by_cases h1 : m = x
    · rw [if_pos h1]
      subst h1
      simp only [List.mem_cons]
      tauto
    · rw [if_neg h1]
      by_cases h2 : m < x
      · rw [if_pos h2]
        simp only [List.mem_cons]
      · rw [if_neg h2]
        simp only [List.mem_cons, ih]
        tauto

theorem sorted_insMonth {m : Int} : ∀ {l : List Int}, l.Sorted (· < ·) →
    (insMonth m l).Sorted (· < ·) := by
  intro l
  induction l with
  | nil => intro _; simp [insMonth]
  | cons x xs ih =>
    intro hs
    rw [List.sorted_cons] at hs
    simp only [insMonth]
    by_cases h1 : m = x
    · rw [if_pos h1]
      exact List.sorted_cons.mpr hs
    · rw [if_neg h1]
      by_cases h2 : m < x
      · rw [if_pos h2]
        apply List.sorted_cons.mpr
        refine ⟨?_, List.sorted_cons.mpr hs⟩
        intro b hb
        rcases List.mem_cons.mp hb with rfl | hb
        · exact h2
        · exact lt_trans h2 (hs.1 b hb)
      · rw [if_neg h2]
        apply List.sorted_cons.mpr
        refine ⟨?_, ih hs.2⟩
        intro b hb
        rcases mem_insMonth.mp hb with rfl | hb
        · omega
        · exact hs.1 b hb

theorem joinMonths_sorted : ∀ (ms : List Int), (joinMonths ms).Sorted (· < ·) := by
  intro ms
  induction ms with
  | nil => simp [joinMonths]
  | cons m ms ih => exact sorted_insMonth ih

theorem mem_joinMonths {a : Int} : ∀ {ms : List Int}, a ∈ joinMonths ms ↔ a ∈ ms := by
  intro ms
  induction ms with
  | nil => simp [joinMonths]
  | cons m ms ih =>
    show a ∈ insMonth m (joinMonths ms) ↔ _
    rw [mem_insMonth, ih]
    simp [List.mem_cons]

theorem joinMonths_nodup (ms : List Int) : (joinMonths ms).Nodup :=
  (joinMonths_sorted ms).nodup

theorem min?_le_mem : ∀ {ms : List Int} {mn a : Int}, ms.min? = some mn → a ∈ ms →
    mn ≤ a := by
  intro ms
  induction ms with
  | nil => intro mn a h _; simp at h
  | cons x xs ih =>
    intro mn a h ha
    rw [List.min?_cons] at h
    injection h with h
    cases hx : xs.min? with
    | none =>
      rw [hx] at h
      simp at h
      have hxs : xs = [] := by
        cases xs with
        | nil => rfl
        | cons y ys => rw [List.min?_cons] at hx; cases hx
      subst hxs
      rcases List.mem_cons.mp ha with rfl | ha2
      · exact le_of_eq h.symm
      · cases ha2
    | some mn2 =>
      rw [hx] at h
      simp at h
      rcases List.mem_cons.mp ha with rfl | ha2
      · rw [← h]; exact min_le_left _ _
      · rw [← h]; exact le_trans (min_le_right _ _) (ih hx ha2)

theorem mem_le_max? : ∀ {ms : List Int} {mx a : Int}, ms.max? = some mx → a ∈ ms →
    a ≤ mx := by
  intro ms
  induction ms with
  | nil => intro mx a h _; simp at h
  | cons x xs ih =>
    intro mx a h ha
    rw [List.max?_cons] at h
    injection h with h
    cases hx : xs.max? with
    | none =>
      rw [hx] at h
      simp at h
      have hxs : xs = [] := by
        cases xs with
        | nil => rfl
        | cons y ys => rw [List.max?_cons] at hx; cases hx
      subst hxs
      rcases List.mem_cons.mp ha with rfl | ha2
      · exact le_of_eq h
      · cases ha2
    | some mx2 =>
      rw [hx] at h
      simp at h
      rcases List.mem_cons.mp ha with rfl | ha2
      · rw [← h]; exact le_max_left _ _
      · rw [← h]; exact le_trans (ih hx ha2) (le_max_right _ _)

theorem mem_monthRange {ms : List Int} {m : Int}
    (h1 : ∃ a ∈ ms, a ≤ m) (h2 : ∃ b ∈ ms, m ≤ b) : m ∈ monthRange ms := by
  obtain ⟨a, ha, ham⟩ := h1
  obtain ⟨b, hb, hbm⟩ := h2
  obtain ⟨x, xs, rfl⟩ : ∃ x xs, ms = x :: xs := by
    cases ms with
    | nil => cases ha
    | cons x xs => exact ⟨x, xs, rfl⟩
  obtain ⟨mn, hmn⟩ : ∃ mn, (x :: xs).min? = some mn := ⟨_, List.min?_cons⟩
  obtain ⟨mx, hmx⟩ : ∃ mx, (x :: xs).max? = some mx := ⟨_, List.max?_cons⟩
  have hmna : mn ≤ m := le_trans (min?_le_mem hmn ha) ham
  have hmxb : m ≤ mx := le_trans hbm (mem_le_max? hmx hb)
  unfold monthRange
  rw [hmn, hmx]
  have hk : (m - mn).toNat ∈ List.range (mx + 1 - mn).toNat :=
    List.mem_range.mpr (by omega)
  show m ∈ List.map (fun (k : Nat) => mn + (k : Int)) (List.range (mx + 1 - mn).toNat)
  refine List.mem_map.mpr ⟨(m - mn).toNat, hk, ?_⟩
  show mn + (((m - mn).toNat : Nat) : Int) = m
  omega

theorem bucketSize_zero {df : DF} {dj : Nat} {m : Int} (h : rowsInMonth df dj m = []) :
    bucketSize df dj m = 0 := by
  rw [bucketSize, h]
  rfl

theorem bucketMean_na {df : DF} {dj j : Nat} {m : Int} (h : rowsInMonth df dj m = []) :
    bucketMean df dj j m = Value.na := by
  unfold bucketMean monthNumVals
  rw [h]
  rfl

/-- C8: when all three inputs are empty, `aggregate` raises no error and
returns the empty table — no month row at all — with the expected column
headers (`air_`-tagged air columns, then the two admission-count columns). -/
theorem c8_empty_inputs (air hosp jp : DF)
    (ha : air.rows = []) (hh : hosp.rows = []) (hj : jp.rows = []) :
    (aggregate_monthly air hosp jp).months = [] ∧
    (aggregate_monthly air hosp jp).rows = [] ∧
    (aggregate_monthly air hosp jp).header =
      ((List.range air.header.length).filter (fun j => j ≠ airIdxCol air)).map
        (fun j => "air_" ++ air.header.getD j "") ++
      ["hospitalizations_total", "hospitalizations_jp"] := by
  have hdm : ∀ (df : DF) (dj : Nat), df.rows = [] → dfMonths df dj = [] := by
    intro df dj h
    unfold dfMonths
    rw [h]
    rfl
  have ham : airMonths air = [] := by
    unfold airMonths
    rw [hdm air _ ha]
    rfl
  have hhm : hospMonths hosp = [] := by
    unfold hospMonths
    rw [hdm hosp _ hh]
    rfl
  have hjm : hospMonths jp = [] := by
    unfold hospMonths
    rw [hdm jp _ hj]
    rfl
  have hcols : airValCols air (airIdxCol air) =
      (List.range air.header.length).filter (fun j => j ≠ airIdxCol air) := by
    unfold airValCols
    apply List.filter_congr
    intro j _
    simp [colCells, ha, isNumCol]
  refine ⟨?_, ?_, ?_⟩
  · simp only [aggregate_monthly]
    rw [ham, hhm, hjm]
    rfl
  · simp only [aggregate_monthly]
    rw [ham, hhm, hjm]
    rfl
  · simp only [aggregate_monthly]
    rw [hcols]

/-- C8 witness: the theorem applied to concrete empty frames, giving the
empty table with headers `air_pm25`, `air_station`, and the two counts. -/
theorem c8_empty_inputs_witness :
    (aggregate_monthly c8WAir c8WHosp c8WJp).months = [] ∧
    (aggregate_monthly c8WAir c8WHosp c8WJp).rows = [] ∧
    (aggregate_monthly c8WAir c8WHosp c8WJp).header =
      ((List.range c8WAir.header.length).filter (fun j => j ≠ airIdxCol c8WAir)).map
        (fun j => "air_" ++ c8WAir.header.getD j "") ++
      ["hospitalizations_total", "hospitalizations_jp"] :=
  c8_empty_inputs c8WAir c8WHosp c8WJp rfl rfl rfl

theorem aggregate_months (air hosp jp : DF) :
    (aggregate_monthly air hosp jp).months =
      joinMonths (airMonths air ++ hospMonths hosp ++ hospMonths jp) := rfl

theorem aggregate_rows (air hosp jp : DF) :
    (aggregate_monthly air hosp jp).rows =
      (aggregate_monthly air hosp jp).months.map
        (aggRow air hosp jp (airIdxCol air) (hospIdxCol hosp) (hospIdxCol jp)
          (airMonths air) (hospMonths hosp) (hospMonths jp)
          (airValCols air (airIdxCol air))) := rfl

theorem aggregate_header (air hosp jp : DF) :
    (aggregate_monthly air hosp jp).header =
      ((airValCols air (airIdxCol air)).map (fun j => "air_" ++ air.header.getD j "")) ++
      ["hospitalizations_total", "hospitalizations_jp"] := rfl

theorem aggRow_length (air hosp jp : DF) (adj hdj jdj : Nat) (aM hM jM : List Int)
    (cols : List Nat) (m : Int) :
    (aggRow air hosp jp adj hdj jdj aM hM jM cols m).length = cols.length + 2 := by
  simp [aggRow]

theorem cell_aggRow_air {k : Nat} {cols : List Nat} (hk : k < cols.length)
    (air hosp jp : DF) (adj hdj jdj : Nat) (aM hM jM : List Int) (m : Int) :
    cell (aggRow air hosp jp adj hdj jdj aM hM jM cols m) k =
      fill0 (if m ∈ aM then bucketMean air adj (cols.getD k 0) m else Value.na) := by
  unfold aggRow cell
  rw [List.getD_eq_getElem?_getD, List.getElem?_append, if_pos (by simpa using hk),
    List.getElem?_map, List.getElem?_eq_getElem hk]
  rw [List.getD_eq_getElem?_getD, List.getElem?_eq_getElem hk]
  rfl

theorem cell_aggRow_hosp (air hosp jp : DF) (adj hdj jdj : Nat) (aM hM jM : List Int)
    (cols : List Nat) (m : Int) :
    cell (aggRow air hosp jp adj hdj jdj aM hM jM cols m) cols.length =
      fill0 (if m ∈ hM then Value.num (bucketSize hosp hdj m) else Value.na) := by
  unfold aggRow cell
  rw [List.getD_eq_getElem?_getD, List.getElem?_append, if_neg (by simp)]
  simp

theorem cell_aggRow_jp (air hosp jp : DF) (adj hdj jdj : Nat) (aM hM jM : List Int)
    (cols : List Nat) (m : Int) :
    cell (aggRow air hosp jp adj hdj jdj aM hM jM cols m) (cols.length + 1) =
      fill0 (if m ∈ jM then Value.num (bucketSize jp jdj m) else Value.na) := by
  unfold aggRow cell
  rw [List.getD_eq_getElem?_getD, List.getElem?_append, if_neg (by simp)]
  simp

/-- C1: for every triple of inputs, the aggregate table has exactly one row
for each calendar month in the union of the three resampled month indexes
(no duplicates, rows in one-to-one correspondence with months), and in the
row of a month `m` every cell belonging to a source with no rows in `m` is
exactly zero (air means, all-cause count, filtered count). -/
theorem c1_join_completeness (air hosp jp : DF) (m : Int) :
    (aggregate_monthly air hosp jp).months.Nodup ∧
    (m ∈ (aggregate_monthly air hosp jp).months ↔
      m ∈ airMonths air ∨ m ∈ hospMonths hosp ∨ m ∈ hospMonths jp) ∧
    (aggregate_monthly air hosp jp).rows.length =
      (aggregate_monthly air hosp jp).months.length ∧
    ∀ i : Nat, (aggregate_monthly air hosp jp).months[i]? = some m →
      ∃ r, (aggregate_monthly air hosp jp).rows[i]? = some r ∧
        (rowsInMonth air (airIdxCol air) m = [] →
          ∀ k, k < (airValCols air (airIdxCol air)).length → cell r k = Value.num 0) ∧
        (rowsInMonth hosp (hospIdxCol hosp) m = [] →
          cell r (airValCols air (airIdxCol air)).length = Value.num 0) ∧
        (rowsInMonth jp (hospIdxCol jp) m = [] →
          cell r ((airValCols air (airIdxCol air)).length + 1) = Value.num 0) := by
  refine ⟨?_, ?_, ?_, ?_⟩
  · rw [aggregate_months]
    exact joinMonths_nodup _
  · rw [aggregate_months, mem_joinMonths]
    simp [List.mem_append, or_assoc]
  · rw [aggregate_rows, List.length_map]
  · intro i hi
    refine ⟨_, by rw [aggregate_rows, List.getElem?_map, hi]; rfl, ?_, ?_, ?_⟩
    · intro hA k hk
      rw [cell_aggRow_air hk, bucketMean_na hA]
      by_cases hm : m ∈ airMonths air
      · rw [if_pos hm]; rfl
      · rw [if_neg hm]; rfl
    · intro hH
      rw [cell_aggRow_hosp]
      by_cases hm : m ∈ hospMonths hosp
      · rw [if_pos hm, bucketSize_zero hH]; rfl
      · rw [if_neg hm]; rfl
    · intro hJ
      rw [cell_aggRow_jp]
      by_cases hm : m ∈ hospMonths jp
      · rw [if_pos hm, bucketSize_zero hJ]; rfl
      · rw [if_neg hm]; rfl

/-- C1 witness: the spec's Scenario 3 — air data for January 2024 only and
hospitalizations for February only give two month rows, and February's air
cell is zero (air has no rows that month). -/
theorem c1_join_completeness_witness :
    (aggregate_monthly c1WAir c1WHosp c1WJp).months = [24288, 24289] ∧
    ∃ r, (aggregate_monthly c1WAir c1WHosp c1WJp).rows[1]? = some r ∧
      ∀ k, k < (airValCols c1WAir (airIdxCol c1WAir)).length → cell r k = Value.num 0 := by
  obtain ⟨_, _, _, h4⟩ := c1_join_completeness c1WAir c1WHosp c1WJp 24289
  obtain ⟨r, hr, hair, _, _⟩ := h4 1 (by decide)
  exact ⟨by decide, r, hr, hair (by decide)⟩

/-- C9: the monthly resampling of a source emits a bucket for every calendar
month between that source's earliest and latest months (first conjunct, for
any source frame); hence a month inside the air span with no rows in any
source still appears as a row of the final table, entirely zero-filled. -/
theorem c9_gap_month_in_table (air hosp jp : DF) (m : Int)
    (h1 : ∃ a ∈ dfMonths air (airIdxCol air), a ≤ m)
    (h2 : ∃ b ∈ dfMonths air (airIdxCol air), m ≤ b)
    (hA : rowsInMonth air (airIdxCol air) m = [])
    (hH : rowsInMonth hosp (hospIdxCol hosp) m = [])
    (hJ : rowsInMonth jp (hospIdxCol jp) m = []) :
    (∀ (df : DF) (dj : Nat), (∃ a ∈ dfMonths df dj, a ≤ m) →
      (∃ b ∈ dfMonths df dj, m ≤ b) → m ∈ monthRange (dfMonths df dj)) ∧
    m ∈ airMonths air ∧
    ∃ (i : Nat) (r : List Value), (aggregate_monthly air hosp jp).months[i]? = some m ∧
      (aggregate_monthly air hosp jp).rows[i]? = some r ∧
      r.length = (airValCols air (airIdxCol air)).length + 2 ∧
      ∀ k, k < r.length → cell r k = Value.num 0 := by
  have hmA : m ∈ airMonths air := mem_monthRange h1 h2
  refine ⟨fun df dj ha hb => mem_monthRange ha hb, hmA, ?_⟩
  have hmem : m ∈ (aggregate_monthly air hosp jp).months := by
    rw [aggregate_months, mem_joinMonths]
    exact List.mem_append_left _ (List.mem_append_left _ hmA)
  obtain ⟨i, hi⟩ := List.mem_iff_getElem?.mp hmem
  refine ⟨i, _, hi, by rw [aggregate_rows, List.getElem?_map, hi]; rfl,
    aggRow_length _ _ _ _ _ _ _ _ _ _ _, ?_⟩
  intro k hk
  rw [aggRow_length] at hk
  by_cases hk1 : k < (airValCols air (airIdxCol air)).length
  · rw [cell_aggRow_air hk1, bucketMean_na hA]
    by_cases hm : m ∈ airMonths air
    · rw [if_pos hm]; rfl
    · rw [if_neg hm]; rfl
  · by_cases hk2 : k = (airValCols air (airIdxCol air)).length
    · subst hk2
      rw [cell_aggRow_hosp]
      by_cases hm : m ∈ hospMonths hosp
      · rw [if_pos hm, bucketSize_zero hH]; rfl
      · rw [if_neg hm]; rfl
    · have hk3 : k = (airValCols air (airIdxCol air)).length + 1 := by omega
      subst hk3
      rw [cell_aggRow_jp]
      by_cases hm : m ∈ hospMonths jp
      · rw [if_pos hm, bucketSize_zero hJ]; rfl
      · rw [if_neg hm]; rfl

/-- C9 witness: air data for January and March 2024 only; the gap month
February 2024 (index 24289) still gets a fully zero row in the table. -/
theorem c9_gap_month_in_table_witness :
    24289 ∈ airMonths c9WAir ∧
    ∃ (i : Nat) (r : List Value), (aggregate_monthly c9WAir c9WHosp c9WJp).months[i]? = some 24289 ∧
      (aggregate_monthly c9WAir c9WHosp c9WJp).rows[i]? = some r ∧
      r.length = (airValCols c9WAir (airIdxCol c9WAir)).length + 2 ∧
      ∀ k, k < r.length → cell r k = Value.num 0 := by
  obtain ⟨_, hm, hrow⟩ := c9_gap_month_in_table c9WAir c9WHosp c9WJp 24289
    ⟨24288, by decide, by decide⟩ ⟨24290, by decide, by decide⟩
    (by decide) (by decide) (by decide)
  exact ⟨hm, hrow⟩

/-- C10: every numeric non-index column of the air input — the pollutant
readings and also the injected numeric `station` identifier — is kept by the
resampling, appears in the aggregate header under the `air_` tag, and its
cell at any month with data is the arithmetic mean of the column's values in
that month; no numeric column is excluded. -/
theorem c10_numeric_air_columns_averaged (air hosp jp : DF) (j : Nat)
    (hj : j < air.header.length) (hne : j ≠ airIdxCol air)
    (hnum : isNumCol (colCells air j) = true) :
    j ∈ airValCols air (airIdxCol air) ∧
    ("air_" ++ air.header.getD j "") ∈ (aggregate_monthly air hosp jp).header ∧
    ∀ (k : Nat), (airValCols air (airIdxCol air))[k]? = some j →
      ∀ (i : Nat) (m : Int), (aggregate_monthly air hosp jp).months[i]? = some m →
        monthNumVals air (airIdxCol air) j m ≠ [] →
        ∃ r, (aggregate_monthly air hosp jp).rows[i]? = some r ∧
          cell r k = Value.num ((monthNumVals air (airIdxCol air) j m).sum /
            ((monthNumVals air (airIdxCol air) j m).length : ℚ)) := by
  have hjmem : j ∈ airValCols air (airIdxCol air) := by
    unfold airValCols
    apply List.mem_filter.mpr
    exact ⟨List.mem_range.mpr hj, by simp [hne, hnum]⟩
  refine ⟨hjmem, ?_, ?_⟩
  · rw [aggregate_header]
    exact List.mem_append_left _ (List.mem_map_of_mem _ hjmem)
  · intro k hk i m hi hne2
    have hklt : k < (airValCols air (airIdxCol air)).length := length_of_getElem?_eq_some hk
    refine ⟨_, by rw [aggregate_rows, List.getElem?_map, hi]; rfl, ?_⟩
    rw [cell_aggRow_air hklt]
    have hgd : (airValCols air (airIdxCol air)).getD k 0 = j := by
      rw [List.getD_eq_getElem?_getD, hk]
      rfl
    rw [hgd]
    have hmA : m ∈ airMonths air := by
      have hrows : rowsInMonth air (airIdxCol air) m ≠ [] := by
        intro hnil
        apply hne2
        unfold monthNumVals
        rw [hnil]
        rfl
      obtain ⟨r0, hr0⟩ := List.exists_mem_of_ne_nil _ hrows
      have hr0m := List.mem_filter.mp hr0
      have hm0 : m ∈ dfMonths air (airIdxCol air) := by
        unfold dfMonths
        apply List.mem_filterMap.mpr
        exact ⟨r0, hr0m.1, by simpa using hr0m.2⟩
      exact mem_monthRange ⟨m, hm0, le_refl m⟩ ⟨m, hm0, le_refl m⟩
    rw [if_pos hmA]
    unfold bucketMean
    rw [if_neg (by simpa [List.length_eq_zero] using hne2)]
    rfl

/-- C10 witness: the numeric `station` column injected by the fetch layer
(column 2 of the air frame) appears as `air_station` and is averaged per
month like any pollutant column. -/
theorem c10_numeric_air_columns_averaged_witness :
    ("air_" ++ c10WAir.header.getD 2 "") ∈
      (aggregate_monthly c10WAir c10WHosp c10WJp).header ∧
    monthNumVals c10WAir (airIdxCol c10WAir) 2 24288 = [101, 101] ∧
    ∃ r, (aggregate_monthly c10WAir c10WHosp c10WJp).rows[0]? = some r ∧
      cell r 1 = Value.num ((monthNumVals c10WAir (airIdxCol c10WAir) 2 24288).sum /
        ((monthNumVals c10WAir (airIdxCol c10WAir) 2 24288).length : ℚ)) := by
  obtain ⟨_, hh, hv⟩ := c10_numeric_air_columns_averaged c10WAir c10WHosp c10WJp 2
    (by decide) (by decide) (by decide)
  exact ⟨hh, by decide, hv 1 (by decide) 0 24288 (by decide) (by decide)⟩

end AirHealth
